import Mathlib

/-!
# GStreams: a push-style stream-composition algebra

Shallow embedding of `gstream.hpp` and of the demonstration program
`gstream_test.cpp`.

## How the C++ is read

* The program memory that outlives a pipeline (the containers a closure reaches
  through `std::addressof`) is a *world* `W`.  An address of an object of type
  `τ` inside the world is a `Ptr W τ`: the pair of its dereferencing read and
  its dereferencing write.
* A function object is its captured variables together with its call operator.
  A call may change the variables the object captured by value (a `mutable`
  lambda) and the world, so a call operator is a function on pairs
  `κ × W`, with `κ` the type of the captured variables.
* `GSGenerator::generate` and `GSProcessor::process` are generic lambdas
  (`auto yield`, `typename Yield`): they accept a continuation of any type.
  The continuation handed to them by `operator|` is always a `[&]` lambda, so
  the state it touches besides the world is the state `κ` of the objects in
  the enclosing frame.  The embedding therefore makes `generate` and `process`
  polymorphic in `κ`.  Inside a composed entity both operands are called from a
  lambda that is not `mutable`, so generators and processors never change
  their own captures: they are plain functions.  A generator handed to
  `gsGenerate` by client code may still be a `mutable` lambda, which can only
  be driven directly or through `gsRef`; such generators are `GSGeneratorVar`.
* Only the right operand of `operator|(GSGenerator, GSAcceptor)` may be a
  function object with variables of its own that change (the positional
  overwriter); that operand is taken by value and dies with the call.
  The closure returned by `operator|(GSProcessor, GSAcceptor)` is not
  `mutable` either: inside it `rhs` is const, so `rhs.accept` must have a const
  call operator, which an acceptor with variables that change does not have.
  Such an acceptor has captures of type `Unit` here; for any other the call at
  line 194 is ill-formed and the embedding has no routine for it.
* Containers are contiguous sequences (`std::string`, `std::vector`), modelled
  as `List`.  A write through an iterator past the end and a change of a
  container's length while it is being iterated are undefined behaviour in
  C++; the embedding leaves the container unchanged in the first case and
  stops the traversal in the second, and no theorem below relies on either.
-/

namespace GStreams

/-! ## Memory model -/

/-- Address of an object of type `τ` living in the world `W`. -/
structure Ptr (W τ : Type) where
  /-- Result of reading through the address. -/
  load : W → τ
  /-- Result of writing through the address. -/
  store : τ → W → W

/-- The address designates a real object: what is written is what is read. -/
def Ptr.Valid {W τ : Type} (p : Ptr W τ) : Prop :=
  ∀ (x : τ) (w : W), p.load (p.store x w) = x

/-- Object `p` is not touched by a write to object `q` (no aliasing). -/
def Ptr.Apart {W τ υ : Type} (p : Ptr W τ) (q : Ptr W υ) : Prop :=
  ∀ (x : υ) (w : W), p.load (q.store x w) = p.load w

/-- A function object: the variables it captured and its call operator. -/
structure Callable (κ W α : Type) where
  /-- Current value of the captured variables. -/
  captures : κ
  /-- The call operator, acting on the captured variables and the world. -/
  call : α → κ × W → κ × W

/-- A random-access iterator into the container at address `container`.  An
iterator never leaves its container, so the container is part of its type and
its value is the offset from the beginning. -/
structure Iterator {W β : Type} (container : Ptr W (List β)) where
  /-- Offset from the beginning of the container. -/
  index : Nat

/-- The iterator `container.begin() + i`. -/
def Iterator.at {W β : Type} (container : Ptr W (List β)) (i : Nat) : Iterator container :=
  { index := i }

/-- The iterator `container.begin()`. -/
def Iterator.begin {W β : Type} (container : Ptr W (List β)) : Iterator container :=
  Iterator.at container 0

/-! ## The three kinds (gstream.hpp 13-32) -/

/-- Class `GSGenerator`: holds the routine `generate(yield)`. -/
structure GSGenerator (W α : Type) where
  /-- Member `generate`. -/
  generate : {κ : Type} → (α → κ × W → κ × W) → κ × W → κ × W

/-- Class `GSProcessor`: holds the routine `process(value, yield)`. -/
structure GSProcessor (W α β : Type) where
  /-- Member `process`. -/
  process : {κ : Type} → α → (β → κ × W → κ × W) → κ × W → κ × W

/-- Class `GSAcceptor`: holds the function object `accept(value)`. -/
structure GSAcceptor (κ W α : Type) where
  /-- Member `accept`. -/
  accept : Callable κ W α

/-! ## Sources (gstream.hpp 36-74) -/

/-- Function `gsGenerate(func)`. -/
def gsGenerate {W α : Type}
    (func : {κ : Type} → (α → κ × W → κ × W) → κ × W → κ × W) : GSGenerator W α :=
  { generate := func }

/-- The loop `for(auto& e : *p_container) yield(e);`: the two ends of the range
are taken once (`n` elements remain, the next one is at offset `k`), each
element is read from the container when its turn comes. -/
def rangeFor {W α κ : Type} (p_container : Ptr W (List α))
    (yield : α → κ × W → κ × W) : Nat → Nat → κ × W → κ × W
  | 0, _, s => s
  | n + 1, k, s =>
    match (p_container.load s.2)[k]? with
    | some e => rangeFor p_container yield n (k + 1) (yield e s)
    | none => s

/-- Function `gsYieldFrom(Container& container)`: the container is borrowed. -/
def gsYieldFrom {W α : Type} (p_container : Ptr W (List α)) : GSGenerator W α :=
  gsGenerate (fun yield s =>
    rangeFor p_container yield (p_container.load s.2).length 0 s)

/-- Function `gsYieldFromCopy(Container container)`: the closure owns the
container, so nothing else can reach it. -/
def gsYieldFromCopy {W α : Type} (container : List α) : GSGenerator W α :=
  gsGenerate (fun yield s => container.foldl (fun s e => yield e s) s)

/-- Algorithm `std::for_each(first, last, f)` on a range of one container:
`last - first` elements are visited from the offset of `first` on, each one
read when its turn comes. -/
def for_each {W α κ : Type} {container : Ptr W (List α)} (first last : Iterator container)
    (f : α → κ × W → κ × W) (s : κ × W) : κ × W :=
  rangeFor container f (last.index - first.index) first.index s

/-- Function `gsYieldFrom(Iterator begin, Iterator end)`. -/
def gsYieldFromRange {W α : Type} {container : Ptr W (List α)}
    (begin end_ : Iterator container) : GSGenerator W α :=
  gsGenerate (fun yield s => for_each begin end_ yield s)

/-! ## Transformers (gstream.hpp 80-107) -/

/-- Function `gsProcess(func)`. -/
def gsProcess {W α β : Type}
    (func : {κ : Type} → α → (β → κ × W → κ × W) → κ × W → κ × W) : GSProcessor W α β :=
  { process := func }

/-- Function `gsMap(func)`: `yield(func(value))`. -/
def gsMap {W α β : Type} (func : α → β) : GSProcessor W α β :=
  gsProcess (fun value yield s => yield (func value) s)

/-- Function `gsFilter(func)`: `if(func(value)) yield(value)`. -/
def gsFilter {W α : Type} (func : α → Bool) : GSProcessor W α α :=
  gsProcess (fun value yield s => if func value then yield value s else s)

/-- Function `gsFilter(func)` for a predicate whose evaluation acts on the
world: `func value w` is the answer together with the world after the
evaluation. -/
def gsFilterActing {W α : Type} (func : α → W → Bool × W) : GSProcessor W α α :=
  gsProcess (fun value yield s =>
    if (func value s.2).1 then yield value (s.1, (func value s.2).2)
    else (s.1, (func value s.2).2))

/-! ## Sinks (gstream.hpp 114-131) -/

/-- Function `gsAccept(func)`. -/
def gsAccept {κ W α : Type} (func : Callable κ W α) : GSAcceptor κ W α :=
  { accept := func }

/-- Function `gsInsertBack(Container& container)`: `p_container->push_back(value)`.
The closure captures the address only. -/
def gsInsertBack {W α : Type} (p_container : Ptr W (List α)) : GSAcceptor Unit W α :=
  gsAccept
    { captures := ()
      call := fun value s =>
        (s.1, p_container.store (p_container.load s.2 ++ [value]) s.2) }

/-! ## The pipe operator (gstream.hpp 139-199) -/

/-- Body of `operator|(GSGenerator lhs, GSAcceptor rhs)`, with the state of the
by-value parameter `rhs` made explicit: `s.1` is the current value of the
variables captured by `rhs.accept`, `s.2` the world. -/
def driveGenAcc {κ W α : Type} (lhs : GSGenerator W α) (rhs : GSAcceptor κ W α)
    (s : κ × W) : κ × W :=
  lhs.generate (fun value s => rhs.accept.call value s) s

/-- The call `lhs | rhs` for a generator and an acceptor: it runs the pipeline
on the world; the parameter `rhs` starts from the captures it was given and is
destroyed on return. -/
def pipeGenAcc {κ W α : Type} (lhs : GSGenerator W α) (rhs : GSAcceptor κ W α)
    (w : W) : W :=
  (driveGenAcc lhs rhs (rhs.accept.captures, w)).2

/-- The call `lhs | rhs` for a generator and a processor. -/
def pipeGenProc {W α β : Type} (lhs : GSGenerator W α) (rhs : GSProcessor W α β) :
    GSGenerator W β :=
  gsGenerate (fun yield s =>
    lhs.generate (fun value s => rhs.process value yield s) s)

/-- The call `lhs | rhs` for two processors. -/
def pipeProcProc {W α β γ : Type} (lhs : GSProcessor W α β) (rhs : GSProcessor W β γ) :
    GSProcessor W α γ :=
  gsProcess (fun value yield s =>
    lhs.process value (fun value2 s => rhs.process value2 yield s) s)

/-- The call `lhs | rhs` for a processor and an acceptor.  The closure returned
(line 189) is not `mutable`: its call operator is const and sees `rhs` as a
const object, so `rhs.accept(...)` at line 194 is well-formed only for an
acceptor whose call operator is const, that is one without variables that a
call changes.  The routine is therefore defined for such acceptors only, and
the composed acceptor has no such variables either. -/
def pipeProcAcc {W α β : Type} (lhs : GSProcessor W α β) (rhs : GSAcceptor Unit W β) :
    GSAcceptor Unit W α :=
  gsAccept
    { captures := ()
      call := fun value s =>
        lhs.process value (fun value2 s => rhs.accept.call value2 s) s }

/-- The right operand of `operator|(GSProcessor, GSAcceptor)`, sorted by the
qualification of the call operator of its member `accept`. -/
inductive AcceptorOperand (κ W α : Type) where
  /-- The call operator is const (a lambda that is not `mutable`). -/
  | constCall (a : GSAcceptor Unit W α)
  /-- The call operator is not const (a `mutable` lambda, a `GSNoCopyFunc`):
  a call may change the variables `κ` of the function object. -/
  | mutableCall (a : GSAcceptor κ W α)

/-- Instantiation of the routine of `lhs | rhs` (lines 189-197) when it is
called: well-formed for a right operand with a const call operator,
ill-formed (no routine) for one whose call operator is not const. -/
def instantiatePipeProcAcc {κ W α β : Type} (lhs : GSProcessor W α β) :
    AcceptorOperand κ W β → Option (GSAcceptor Unit W α)
  | .constCall rhs => some (pipeProcAcc lhs rhs)
  | .mutableCall _ => none

/-! ## Reference views (gstream.hpp 202-233) -/

/-- Function `gsRef(GSGenerator& gen)`: `(*p_generate)(yield)`. -/
def gsRefGenerator {W α : Type} (gen : GSGenerator W α) : GSGenerator W α :=
  gsGenerate (fun yield s => gen.generate yield s)

/-- Function `gsRef(GSProcessor& prc)`: `(*p_process)(value, yield)`. -/
def gsRefProcessor {W α β : Type} (prc : GSProcessor W α β) : GSProcessor W α β :=
  gsProcess (fun value yield s => prc.process value yield s)

/-- Function `gsRef(GSAcceptor& act)`: the new acceptor captures the address of
`act.accept` only.  The object `act` stays where it is declared, in the frame of
the caller: seen from the pipeline its variables are part of the world, which
is `κ × W`. -/
def gsRefAcceptor {κ W α : Type} (act : GSAcceptor κ W α) : GSAcceptor Unit (κ × W) α :=
  gsAccept
    { captures := ()
      call := fun value s => (s.1, act.accept.call value s.2) }

/-! ## Namespace gsExperimental (gstream.hpp 237-270) -/

namespace gsExperimental

/-- Struct `GSNoCopyFunc<Function>`: holds the function object `f`. -/
structure GSNoCopyFunc (Function : Type) where
  /-- Member `f`. -/
  f : Function

/-- Member `GSNoCopyFunc::operator()`, `return f(args...)`, when `f` is a
function object with variables of its own. The variables of the wrapper are
those of `f`. -/
def GSNoCopyFunc.toCallable {κ W α : Type} (g : GSNoCopyFunc (Callable κ W α)) :
    Callable κ W α :=
  { captures := g.f.captures
    call := fun value s => g.f.call value s }

/-- Member `GSNoCopyFunc::operator()`, `return f(args...)`, when `f` is a plain
routine from its argument list to its result. -/
def GSNoCopyFunc.invoke {Args Result : Type} (g : GSNoCopyFunc (Args → Result))
    (args : Args) : Result :=
  g.f args

/-- Function `gsNoCopyFunc(function)`. -/
def gsNoCopyFunc {Function : Type} (function : Function) : GSNoCopyFunc Function :=
  { f := function }

/-- Function `gsOverwriteForward(iterator)`: `*iterator++ = value`, the iterator
being captured by value in a `mutable` lambda. -/
def gsOverwriteForward {W α : Type} {container : Ptr W (List α)}
    (iterator : Iterator container) : GSAcceptor (Iterator container) W α :=
  gsAccept (gsNoCopyFunc
    { captures := iterator
      call := fun value s =>
        ({ index := s.1.index + 1 },
         container.store ((container.load s.2).set s.1.index value) s.2) }).toCallable

/-- The acceptor `gsOverwriteForward(iterator)` as a right operand: its lambda
is `mutable` (line 264) and `GSNoCopyFunc::operator()` is not const
(line 248). -/
def gsOverwriteForwardOperand {W α : Type} {container : Ptr W (List α)}
    (iterator : Iterator container) : AcceptorOperand (Iterator container) W α :=
  AcceptorOperand.mutableCall (gsOverwriteForward iterator)

end gsExperimental

/-! ## Generators that own variables -/

/-- A `GSGenerator` whose function object `generate` owns variables that a call
changes (a `mutable` lambda handed to `gsGenerate`).  The continuation cannot
reach these variables. -/
structure GSGeneratorVar (γ W α : Type) where
  /-- Value of the captured variables when the object is built. -/
  captures : γ
  /-- Call operator of member `generate`, acting on the captured variables, on
  the state of the continuation and on the world. -/
  generate : {κ : Type} → (α → κ × W → κ × W) → γ × (κ × W) → γ × (κ × W)

/-- A generator without variables of its own, seen as a generator object. -/
def GSGenerator.toVar {W α : Type} (gen : GSGenerator W α) : GSGeneratorVar Unit W α :=
  { captures := ()
    generate := fun yield s => (s.1, gen.generate yield s.2) }

/-- Body of `operator|(GSGenerator lhs, GSAcceptor rhs)` for a left operand that
owns variables: `s.1` is the current value of the variables of `lhs.generate`,
`s.2.1` that of the variables of `rhs.accept`, `s.2.2` the world. -/
def driveVarAcc {γ κ W α : Type} (lhs : GSGeneratorVar γ W α) (rhs : GSAcceptor κ W α)
    (s : γ × (κ × W)) : γ × (κ × W) :=
  lhs.generate (fun value s => rhs.accept.call value s) s

/-- The statement `gen | rhs` for a variable `gen` of the calling frame, whose
captured variables currently hold `s.1`: `operator|` receives a copy of `gen`,
runs on the copy and destroys it; `gen` itself is left as it was. -/
def pipeCopyOfVar {γ κ W α : Type} (gen : GSGeneratorVar γ W α) (rhs : GSAcceptor κ W α)
    (s : γ × W) : γ × W :=
  (s.1, (driveVarAcc gen rhs (s.1, (rhs.accept.captures, s.2))).2.2)

/-- The statement `gsRef(gen) | rhs` for a variable `gen` of the calling frame:
the routine reached through the address runs on the variables of `gen`
itself. -/
def pipeRefOfVar {γ κ W α : Type} (gen : GSGeneratorVar γ W α) (rhs : GSAcceptor κ W α)
    (s : γ × W) : γ × W :=
  ((driveVarAcc gen rhs (s.1, (rhs.accept.captures, s.2))).1,
   (driveVarAcc gen rhs (s.1, (rhs.accept.captures, s.2))).2.2)

/-! ## The kinds and the overload set of the pipe operator -/

/-- The three kinds of entity. -/
inductive Kind where
  /-- Kind of `GSGenerator`. -/
  | generator
  /-- Kind of `GSProcessor`. -/
  | processor
  /-- Kind of `GSAcceptor`. -/
  | acceptor
deriving DecidableEq, Repr

/-- An entity of any of the three kinds. -/
inductive Entity (κ W α : Type) : Type 1 where
  /-- A `GSGenerator`. -/
  | generator (g : GSGenerator W α)
  /-- A `GSProcessor`. -/
  | processor (p : GSProcessor W α α)
  /-- A `GSAcceptor`. -/
  | acceptor (a : GSAcceptor κ W α)

/-- Kind of an entity. -/
def Entity.kind {κ W α : Type} : Entity κ W α → Kind
  | .generator _ => Kind.generator
  | .processor _ => Kind.processor
  | .acceptor _ => Kind.acceptor

/-- What an accepted use of `operator|` gives: the `void` overload runs the
pipeline, the other overloads return a new entity. -/
inductive Piped (κ W α : Type) : Type 1 where
  /-- The pipeline was run; `effect` is what it does to the world. -/
  | executed (effect : W → W)
  /-- A new entity was built. -/
  | built (e : Entity κ W α)
  /-- A new acceptor was built whose function object is the closure of line
  189, which holds both operands; its routine is instantiated when called. -/
  | composed (lhs : GSProcessor W α α) (rhs : GSAcceptor κ W α)

/-- Kind of the entity returned, if one is returned. -/
def Piped.kind {κ W α : Type} : Piped κ W α → Option Kind
  | .executed _ => none
  | .built e => some e.kind
  | .composed _ _ => some Kind.acceptor

/-- The routine of the acceptor returned, if an acceptor is returned, all
operands having const call operators. -/
def Piped.routine {W α : Type} : Piped Unit W α → Option (GSAcceptor Unit W α)
  | .composed lhs rhs => some (pipeProcAcc lhs rhs)
  | .built (.acceptor a) => some a
  | _ => none

/-- Overload resolution of `lhs | rhs`: the four overloads of gstream.hpp
139-199 in source order; for any other pair of operands no overload is viable
and the expression is ill-formed. -/
def pipe {κ W α : Type} : Entity κ W α → Entity κ W α → Option (Piped κ W α)
  | .generator lhs, .acceptor rhs => some (.executed (pipeGenAcc lhs rhs))
  | .generator lhs, .processor rhs => some (.built (.generator (pipeGenProc lhs rhs)))
  | .processor lhs, .processor rhs => some (.built (.processor (pipeProcProc lhs rhs)))
  | .processor lhs, .acceptor rhs => some (.composed lhs rhs)
  | _, _ => none

/-! ## The demonstration program (gstream_test.cpp) -/

/-- Local variables `myString` and `output` of `main`. -/
structure MainLocals where
  /-- Variable `myString`. -/
  myString : List Char
  /-- Variable `output`. -/
  output : List Char
deriving DecidableEq, Repr

/-- Address of `myString`. -/
def p_myString : Ptr MainLocals (List Char) :=
  { load := fun w => w.myString
    store := fun x w => { w with myString := x } }

/-- Address of `output`. -/
def p_output : Ptr MainLocals (List Char) :=
  { load := fun w => w.output
    store := fun x w => { w with output := x } }

/-- State of `main` on entry: `myString = "Hello World"`, `output` empty. -/
def mainEntry : MainLocals :=
  { myString := "Hello World".toList, output := [] }

/-- Line 20: the upper-case pipeline into `gsInsertBack(output)`. -/
def mainLine20 (w : MainLocals) : MainLocals :=
  pipeGenAcc (pipeGenProc (gsYieldFrom p_myString) (gsMap Char.toUpper))
    (gsInsertBack p_output) w

/-- Line 23: the lower-case pipeline into `gsOverwriteForward(output.begin())`. -/
def mainLine23 (w : MainLocals) : MainLocals :=
  pipeGenAcc (pipeGenProc (gsYieldFrom p_myString) (gsMap Char.toLower))
    (gsExperimental.gsOverwriteForward (Iterator.begin p_output)) w

/-- Line 26: `std::fill(output.begin(), output.end(), '.')`. -/
def mainLine26 (w : MainLocals) : MainLocals :=
  { w with output := w.output.map (fun _ => '.') }

/-- Lines 28-32, for any container, start offset and three sources: the
variable `overwriter` is declared, then driven three times through
`gsRef(overwriter)`.  While it is in scope the world of the pipelines is the
pair of its variables and of the other locals. -/
def overwriteThrice {W α : Type} (container : Ptr W (List α)) (i : Nat)
    (a b c : List α) (w : W) : W :=
  let overwriter := gsExperimental.gsOverwriteForward (Iterator.at container i)
  let s0 : Iterator container × W := (overwriter.accept.captures, w)
  let s1 := pipeGenAcc (gsYieldFromCopy a) (gsRefAcceptor overwriter) s0
  let s2 := pipeGenAcc (gsYieldFromCopy b) (gsRefAcceptor overwriter) s1
  let s3 := pipeGenAcc (gsYieldFromCopy c) (gsRefAcceptor overwriter) s2
  s3.2

/-- Two drives without a reference view: `gsYieldFrom(a)` into one
`gsOverwriteForward(buf.begin() + i)`, then `gsYieldFrom(b)` into another one
built from the same position. -/
def overwriteTwiceFresh {W α : Type} (buf : Ptr W (List α)) (i : Nat)
    (a b : Ptr W (List α)) (w : W) : W :=
  let w1 := pipeGenAcc (gsYieldFrom a) (gsExperimental.gsOverwriteForward (Iterator.at buf i)) w
  pipeGenAcc (gsYieldFrom b) (gsExperimental.gsOverwriteForward (Iterator.at buf i)) w1

/-- Lines 28-32 with the operands of the test. -/
def mainLines28to32 (w : MainLocals) : MainLocals :=
  overwriteThrice p_output 0 "Hello".toList ".".toList "World".toList w

/-- The three lines `main` prints (lines 21, 24 and 36). -/
def mainPrinted : List String :=
  let w1 := mainLine20 mainEntry
  let w2 := mainLine23 w1
  let w3 := mainLines28to32 (mainLine26 w2)
  [String.mk w1.output, String.mk w2.output, String.mk w3.output]

/-! ## Specification-level notions -/

/-- Naive simulation of a sink: the values of `l` are handed to the routine of
`C` one by one, in order. -/
def feed {κ W α : Type} (C : GSAcceptor κ W α) (l : List α) (s : κ × W) : κ × W :=
  l.foldl (fun s v => C.accept.call v s) s

/-- The acceptor `C` with an observer in front: each call first records its
argument, then runs the routine of `C`. -/
def observed {κ W α : Type} (C : GSAcceptor κ W α) : GSAcceptor (List α × κ) W α :=
  gsAccept
    { captures := ([], C.accept.captures)
      call := fun value s =>
        let r := C.accept.call value (s.1.2, s.2)
        ((s.1.1 ++ [value], r.1), r.2) }

/-- The arguments of the successive calls of the routine of `C` while
`P | C` runs on world `w`. -/
def invocations {κ W α : Type} (P : GSGenerator W α) (C : GSAcceptor κ W α) (w : W) :
    List α :=
  (driveGenAcc P (observed C) (([], C.accept.captures), w)).1.1

/-- The arguments of the successive calls of the routine of `C` while a
generator object `gen`, its variables holding `s.1`, is driven into `C` on the
world `s.2`. -/
def invocationsVar {γ κ W α : Type} (gen : GSGeneratorVar γ W α) (C : GSAcceptor κ W α)
    (s : γ × W) : List α :=
  (driveVarAcc gen (observed C) (s.1, (([], C.accept.captures), s.2))).2.1.1

/-- The kind-pairing table of the specification (section 4.2): the result of
composing a left kind with a right kind, `none` where the table has no row.
`some none` is the row that executes and yields no entity. -/
def specTable : Kind → Kind → Option (Option Kind)
  | Kind.generator, Kind.acceptor => some none
  | Kind.generator, Kind.processor => some (some Kind.generator)
  | Kind.processor, Kind.processor => some (some Kind.processor)
  | Kind.processor, Kind.acceptor => some (some Kind.acceptor)
  | _, _ => none

/-- The predicate `x => p(x) && q(x)` for predicates that act on the world:
`q` is evaluated only if `p` answered true. -/
def andAlso {W α : Type} (p q : α → W → Bool × W) : α → W → Bool × W :=
  fun x w => if (p x w).1 then q x (p x w).2 else (false, (p x w).2)

/-- The routine of `C` leaves the object at `p` as it is. -/
def Keeps {κ W α τ : Type} (C : GSAcceptor κ W α) (p : Ptr W τ) : Prop :=
  ∀ (v : α) (s : κ × W), p.load (C.accept.call v s).2 = p.load s.2

/-- Transformer `T` emits, for the input `x`, the values `g x` in order and does
nothing else. -/
def Emits {W α β : Type} (T : GSProcessor W α β) (g : α → List β) : Prop :=
  ∀ (κ : Type) (x : α) (yield : β → κ × W → κ × W) (s : κ × W),
    T.process x yield s = (g x).foldl (fun s y => yield y s) s

/-! ## Entities used as concrete instances -/

/-- A transformer with fan-out two: it emits its input, then the upper-case
form of its input. -/
def echoUpper : GSProcessor MainLocals Char Char :=
  gsProcess (fun value yield s => yield value.toUpper (yield value s))

/-- The generator `gsGenerate([n = 0](auto yield) mutable { yield(n++); })`:
each drive yields the counter and advances it. -/
def counter {W : Type} : GSGeneratorVar Nat W Nat :=
  { captures := 0
    generate := fun yield s => (s.1 + 1, yield s.1 s.2) }

/-- A world that is one container, and the address of that container. -/
def p_only {τ : Type} : Ptr τ τ :=
  { load := fun w => w
    store := fun x _ => x }

/-- Locals of a caller with two source strings and one buffer. -/
structure TwoSources where
  /-- First source. -/
  a : List Char
  /-- Second source. -/
  b : List Char
  /-- The buffer written. -/
  buffer : List Char
deriving DecidableEq, Repr

/-- Address of the first source. -/
def p_a : Ptr TwoSources (List Char) :=
  { load := fun w => w.a
    store := fun x w => { w with a := x } }

/-- Address of the second source. -/
def p_b : Ptr TwoSources (List Char) :=
  { load := fun w => w.b
    store := fun x w => { w with b := x } }

/-- Address of the buffer. -/
def p_buffer : Ptr TwoSources (List Char) :=
  { load := fun w => w.buffer
    store := fun x w => { w with buffer := x } }

/-! ## Auxiliary facts -/

theorem rangeFor_eq_foldl {W α κ : Type} (p : Ptr W (List α))
    (yield : α → κ × W → κ × W)
    (h : ∀ (v : α) (s : κ × W), p.load (yield v s).2 = p.load s.2) :
    ∀ (n k : Nat) (s : κ × W), k + n ≤ (p.load s.2).length →
      rangeFor p yield n k s
        = (((p.load s.2).drop k).take n).foldl (fun s v => yield v s) s := by
  intro n
  induction n with
  | zero => intro k s _; simp [rangeFor]
  | succ n ih =>
    intro k s hk
    have hlt : k < (p.load s.2).length := by omega
    have hget : (p.load s.2)[k]? = some (p.load s.2)[k] := List.getElem?_eq_getElem hlt
    rw [rangeFor]
    simp only [hget]
    rw [ih (k + 1) (yield _ s) (by rw [h]; omega), h, List.drop_eq_getElem_cons hlt,
      List.take_succ_cons, List.foldl_cons]

theorem generate_gsYieldFrom {W α κ : Type} (p : Ptr W (List α))
    (yield : α → κ × W → κ × W)
    (h : ∀ (v : α) (s : κ × W), p.load (yield v s).2 = p.load s.2) (s : κ × W) :
    (gsYieldFrom p).generate yield s
      = (p.load s.2).foldl (fun s v => yield v s) s := by
  show rangeFor p yield (p.load s.2).length 0 s = _
  rw [rangeFor_eq_foldl p yield h _ 0 s (by omega)]
  simp

theorem feed_nil {κ W α : Type} (C : GSAcceptor κ W α) (s : κ × W) : feed C [] s = s := rfl

theorem feed_cons {κ W α : Type} (C : GSAcceptor κ W α) (v : α) (l : List α) (s : κ × W) :
    feed C (v :: l) s = feed C l (C.accept.call v s) := rfl

theorem feed_append {κ W α : Type} (C : GSAcceptor κ W α) (l l2 : List α) (s : κ × W) :
    feed C (l ++ l2) s = feed C l2 (feed C l s) := by
  simp [feed]

theorem foldl_feed {κ W α β : Type} (C : GSAcceptor κ W β) (g : α → List β) (l : List α)
    (s : κ × W) :
    l.foldl (fun s v => feed C (g v) s) s = feed C (l.flatMap g) s := by
  induction l generalizing s with
  | nil => rfl
  | cons a l ih => simp [List.flatMap_cons, feed_append, ih]

theorem Keeps.feed {κ W α τ : Type} {C : GSAcceptor κ W α} {p : Ptr W τ} (h : Keeps C p)
    (l : List α) (s : κ × W) : p.load (feed C l s).2 = p.load s.2 := by
  induction l generalizing s with
  | nil => rfl
  | cons a l ih => rw [feed_cons, ih, h]

theorem Keeps.observed {κ W α τ : Type} {C : GSAcceptor κ W α} {p : Ptr W τ}
    (h : Keeps C p) : Keeps (observed C) p := by
  intro v s
  exact h v (s.1.2, s.2)

theorem feed_observed {κ W α : Type} (C : GSAcceptor κ W α) (l log : List α) (k : κ) (w : W) :
    feed (observed C) l ((log, k), w)
      = ((log ++ l, (feed C l (k, w)).1), (feed C l (k, w)).2) := by
  induction l generalizing log k w with
  | nil => simp [feed]
  | cons a l ih =>
    rw [feed_cons, feed_cons]
    show feed (observed C) l ((log ++ [a], (C.accept.call a (k, w)).1), (C.accept.call a (k, w)).2) = _
    rw [ih]
    simp

theorem drive_gsYieldFrom {κ W α : Type} (p : Ptr W (List α)) (C : GSAcceptor κ W α)
    (h : Keeps C p) (s : κ × W) :
    driveGenAcc (gsYieldFrom p) C s = feed C (p.load s.2) s :=
  generate_gsYieldFrom p (fun v s => C.accept.call v s) h s

theorem drive_gsYieldFrom_pipe {κ W α β : Type} (p : Ptr W (List α)) (T : GSProcessor W α β)
    (g : α → List β) (hT : Emits T g) (C : GSAcceptor κ W β) (h : Keeps C p) (s : κ × W) :
    driveGenAcc (pipeGenProc (gsYieldFrom p) T) C s = feed C ((p.load s.2).flatMap g) s := by
  have e : (fun (value : α) (s : κ × W) => T.process value (fun v s => C.accept.call v s) s)
      = fun value s => feed C (g value) s := by
    funext value s
    exact hT κ value _ s
  show (gsYieldFrom p).generate
    (fun value s => T.process value (fun v s => C.accept.call v s) s) s = _
  rw [e, generate_gsYieldFrom p _ (fun v s => h.feed (g v) s), foldl_feed]

theorem flatMap_one {α β : Type} (f : α → β) (l : List α) :
    l.flatMap (fun x => [f x]) = l.map f := by
  induction l with
  | nil => rfl
  | cons a l ih => simp [List.flatMap_cons, ih]

theorem flatMap_if {α : Type} (p : α → Bool) (l : List α) :
    l.flatMap (fun x => if p x then [x] else []) = l.filter p := by
  induction l with
  | nil => rfl
  | cons a l ih =>
    cases h : p a <;> simp [List.flatMap_cons, ih, h]

theorem emits_gsMap {W α β : Type} (f : α → β) :
    Emits (gsMap f : GSProcessor W α β) (fun x => [f x]) :=
  fun _ _ _ _ => rfl

theorem emits_gsFilter {W α : Type} (p : α → Bool) :
    Emits (gsFilter p : GSProcessor W α α) (fun x => if p x then [x] else []) := by
  intro κ x yield s
  show (if p x then yield x s else s)
    = (if p x then [x] else []).foldl (fun s y => yield y s) s
  cases h : p x <;> simp

theorem call_pipeProcAcc {W α β : Type} (T : GSProcessor W α β) (g : α → List β)
    (hT : Emits T g) (C : GSAcceptor Unit W β) :
    (fun (v : α) (s : Unit × W) => (pipeProcAcc T C).accept.call v s)
      = fun v s => feed C (g v) s := by
  funext v s
  exact hT Unit v _ s

theorem pipeline_gsYieldFrom {κ W α β : Type} (xs : Ptr W (List α)) (T : GSProcessor W α β)
    (g : α → List β) (hT : Emits T g) (C : GSAcceptor κ W β) (hC : Keeps C xs) (w : W) :
    invocations (pipeGenProc (gsYieldFrom xs) T) C w = (xs.load w).flatMap g
    ∧ pipeGenAcc (pipeGenProc (gsYieldFrom xs) T) C w
        = (feed C ((xs.load w).flatMap g) (C.accept.captures, w)).2 := by
  constructor
  · unfold invocations
    rw [drive_gsYieldFrom_pipe xs T g hT (observed C) hC.observed, feed_observed]
    simp
  · unfold pipeGenAcc
    rw [drive_gsYieldFrom_pipe xs T g hT C hC]

theorem keeps_gsInsertBack {W α τ : Type} (p : Ptr W τ) (out : Ptr W (List α))
    (h : p.Apart out) : Keeps (gsInsertBack out) p :=
  fun _ s => h _ s.2

theorem load_feed_gsInsertBack {W α : Type} (out : Ptr W (List α)) (hv : out.Valid)
    (l : List α) (s : Unit × W) :
    out.load (feed (gsInsertBack out) l s).2 = out.load s.2 ++ l := by
  induction l generalizing s with
  | nil => simp [feed]
  | cons a l ih =>
    rw [feed_cons, ih]
    show out.load (out.store (out.load s.2 ++ [a]) s.2) ++ l = _
    rw [hv]
    simp

theorem keeps_gsOverwriteForward {W α τ : Type} (p : Ptr W τ) (buf : Ptr W (List α))
    (it : Iterator buf) (h : p.Apart buf) : Keeps (gsExperimental.gsOverwriteForward it) p :=
  fun _ s => h _ s.2

theorem set_splice {α : Type} (b l : List α) (i : Nat) (v : α)
    (h : i + (l.length + 1) ≤ b.length) :
    (b.set i v).take (i + 1) ++ l ++ (b.set i v).drop (i + 1 + l.length)
      = b.take i ++ (v :: l) ++ b.drop (i + (l.length + 1)) := by
  have hi : i < b.length := by omega
  have hl : (b.take i).length = i := by simp only [List.length_take]; omega
  have e : b.set i v = b.take i ++ v :: b.drop (i + 1) := by
    rw [List.set_eq_take_append_cons_drop, if_pos hi]
  have e1 : (b.set i v).take (i + 1) = b.take i ++ [v] := by
    rw [e, List.take_append_eq_append_take, hl, List.take_of_length_le (by omega)]
    simp
  have e2 : (b.set i v).drop (i + 1 + l.length) = b.drop (i + (l.length + 1)) := by
    rw [e, List.drop_append_eq_append_drop, hl, List.drop_of_length_le (by omega)]
    have : i + 1 + l.length - i = l.length + 1 := by omega
    rw [this]
    simp
    congr 1
    omega
  rw [e1, e2]
  simp

theorem feed_gsOverwriteForward {W α : Type} (buf : Ptr W (List α)) (hv : buf.Valid)
    (it : Iterator buf) (l : List α) (i : Nat) (w : W)
    (h : i + l.length ≤ (buf.load w).length) :
    (feed (gsExperimental.gsOverwriteForward it) l (Iterator.at buf i, w)).1
        = Iterator.at buf (i + l.length)
    ∧ buf.load (feed (gsExperimental.gsOverwriteForward it) l (Iterator.at buf i, w)).2
        = (buf.load w).take i ++ l ++ (buf.load w).drop (i + l.length) := by
  induction l generalizing i w with
  | nil => simp [feed]
  | cons v l ih =>
    rw [feed_cons]
    show (feed (gsExperimental.gsOverwriteForward it) l
            (Iterator.at buf (i + 1), buf.store ((buf.load w).set i v) w)).1 = _
      ∧ buf.load (feed (gsExperimental.gsOverwriteForward it) l
            (Iterator.at buf (i + 1), buf.store ((buf.load w).set i v) w)).2 = _
    have h2 : i + 1 + l.length ≤ (buf.load (buf.store ((buf.load w).set i v) w)).length := by
      rw [hv]; simp only [List.length_set]; simp only [List.length_cons] at h; omega
    obtain ⟨e1, e2⟩ := ih (i + 1) (buf.store ((buf.load w).set i v) w) h2
    rw [e1, e2, hv]
    refine ⟨?_, set_splice (buf.load w) l i v (by simpa using h)⟩
    simp only [List.length_cons]
    congr 1
    omega

theorem pipe_gsYieldFromCopy_gsRef {κ W α : Type} (l : List α) (act : GSAcceptor κ W α)
    (s : κ × W) :
    pipeGenAcc (gsYieldFromCopy l) (gsRefAcceptor act) s = feed act l s := by
  show (l.foldl (fun (t : Unit × (κ × W)) e => (t.1, act.accept.call e t.2)) ((), s)).2
    = l.foldl (fun s v => act.accept.call v s) s
  induction l generalizing s with
  | nil => rfl
  | cons a l ih => exact ih (act.accept.call a s)

theorem splice_length {α : Type} (b l : List α) (i : Nat) (h : i + l.length ≤ b.length) :
    (b.take i ++ l ++ b.drop (i + l.length)).length = b.length := by
  simp only [List.length_append, List.length_take, List.length_drop]
  omega

theorem splice_inside {α : Type} (b l : List α) (i k : Nat) (h : i + l.length ≤ b.length)
    (hk : k < l.length) :
    (b.take i ++ l ++ b.drop (i + l.length))[i + k]? = some l[k] := by
  have hl : (b.take i).length = i := by simp only [List.length_take]; omega
  rw [List.append_assoc, List.getElem?_append_right (by omega), hl,
    List.getElem?_append_left (by omega), List.getElem?_eq_getElem (by omega)]
  simp

theorem splice_outside {α : Type} (b l : List α) (i j : Nat) (h : i + l.length ≤ b.length)
    (hj : j < i ∨ i + l.length ≤ j) :
    (b.take i ++ l ++ b.drop (i + l.length))[j]? = b[j]? := by
  have hl : (b.take i).length = i := by simp only [List.length_take]; omega
  rcases hj with hj | hj
  · rw [List.append_assoc, List.getElem?_append_left (by omega), List.getElem?_take_of_lt hj]
  · rw [List.getElem?_append_right (by simp only [List.length_append]; omega),
      List.getElem?_drop]
    simp only [List.length_append, hl]
    congr 1
    omega

theorem rangeFor_overwrite_in_place {W α : Type} (buf : Ptr W (List α)) (hv : buf.Valid)
    (f : α → α) (it : Iterator buf) :
    ∀ (n k : Nat) (w : W), k + n ≤ (buf.load w).length →
      buf.load (rangeFor buf
          (fun value s => (gsExperimental.gsOverwriteForward it).accept.call (f value) s)
          n k (Iterator.at buf k, w)).2
        = (buf.load w).take k ++ (((buf.load w).drop k).take n).map f
            ++ (buf.load w).drop (k + n) := by
  intro n
  induction n with
  | zero => intro k w _; simp [rangeFor]
  | succ n ih =>
    intro k w hk
    have hlt : k < (buf.load w).length := by omega
    have hget : (buf.load w)[k]? = some (buf.load w)[k] := List.getElem?_eq_getElem hlt
    rw [rangeFor]
    simp only [hget]
    show buf.load (rangeFor buf _ n (k + 1)
      (Iterator.at buf (k + 1), buf.store ((buf.load w).set k (f (buf.load w)[k])) w)).2 = _
    have h2 : k + 1 + n ≤ (buf.load (buf.store ((buf.load w).set k (f (buf.load w)[k])) w)).length := by
      rw [hv]; simp only [List.length_set]; omega
    rw [ih (k + 1) _ h2, hv, List.drop_set_of_lt _ _ (Nat.lt_succ_self k),
      List.drop_eq_getElem_cons hlt, List.take_succ_cons, List.map_cons]
    have hl : ((List.take n (List.drop (k + 1) (buf.load w))).map f).length = n := by
      simp only [List.length_map, List.length_take, List.length_drop]; omega
    have e := set_splice (buf.load w) ((List.take n (List.drop (k + 1) (buf.load w))).map f) k
      (f (buf.load w)[k]) (by rw [hl]; omega)
    rw [hl] at e
    exact e

theorem invocations_gsYieldFromCopy {κ W α : Type} (l : List α) (C : GSAcceptor κ W α)
    (w : W) : invocations (gsYieldFromCopy l) C w = l := by
  show (feed (observed C) l (([], C.accept.captures), w)).1.1 = l
  rw [feed_observed]
  simp

theorem invocations_gsYieldFrom {κ W α : Type} (xs : Ptr W (List α)) (C : GSAcceptor κ W α)
    (hC : Keeps C xs) (w : W) : invocations (gsYieldFrom xs) C w = xs.load w := by
  unfold invocations
  rw [drive_gsYieldFrom xs (observed C) hC.observed, feed_observed]
  simp

theorem pipeRefOfVar_eq_copy {γ κ W α : Type} (gen : GSGeneratorVar γ W α)
    (hfix : ∀ (κ2 : Type) (yield : α → κ2 × W → κ2 × W) (s : γ × (κ2 × W)),
      (gen.generate yield s).1 = s.1)
    (C : GSAcceptor κ W α) (s : γ × W) : pipeRefOfVar gen C s = pipeCopyOfVar gen C s := by
  unfold pipeRefOfVar pipeCopyOfVar driveVarAcc
  rw [hfix]

theorem load_pipe_gsOverwriteForward {W α : Type} (xs buf : Ptr W (List α)) (i : Nat)
    (hv : buf.Valid) (ha : xs.Apart buf) (w : W)
    (hfit : i + (xs.load w).length ≤ (buf.load w).length) :
    buf.load (pipeGenAcc (gsYieldFrom xs)
        (gsExperimental.gsOverwriteForward (Iterator.at buf i)) w)
      = (buf.load w).take i ++ xs.load w ++ (buf.load w).drop (i + (xs.load w).length) := by
  unfold pipeGenAcc
  rw [drive_gsYieldFrom xs _ (keeps_gsOverwriteForward xs buf _ ha)]
  exact (feed_gsOverwriteForward buf hv _ (xs.load w) i w hfit).2

theorem keep_pipe_gsOverwriteForward {W α τ : Type} (p : Ptr W τ) (xs buf : Ptr W (List α))
    (i : Nat) (hp : p.Apart buf) (ha : xs.Apart buf) (w : W) :
    p.load (pipeGenAcc (gsYieldFrom xs)
        (gsExperimental.gsOverwriteForward (Iterator.at buf i)) w) = p.load w := by
  unfold pipeGenAcc
  rw [drive_gsYieldFrom xs _ (keeps_gsOverwriteForward xs buf _ ha)]
  exact (keeps_gsOverwriteForward p buf _ hp).feed _ _

theorem load_overwriteTwiceFresh {W α : Type} (buf pa pb : Ptr W (List α)) (i : Nat)
    (hv : buf.Valid) (ha : pa.Apart buf) (hb : pb.Apart buf) (w : W)
    (hfa : i + (pa.load w).length ≤ (buf.load w).length)
    (hfb : i + (pb.load w).length ≤ (buf.load w).length) :
    buf.load (overwriteTwiceFresh buf i pa pb w)
      = ((buf.load w).take i ++ pa.load w ++ (buf.load w).drop (i + (pa.load w).length)).take i
        ++ pb.load w
        ++ ((buf.load w).take i ++ pa.load w
              ++ (buf.load w).drop (i + (pa.load w).length)).drop (i + (pb.load w).length) := by
  unfold overwriteTwiceFresh
  have e1 := load_pipe_gsOverwriteForward pa buf i hv ha w hfa
  have e2 := keep_pipe_gsOverwriteForward pb pa buf i hb ha w
  have h := load_pipe_gsOverwriteForward pb buf i hv hb
    (pipeGenAcc (gsYieldFrom pa) (gsExperimental.gsOverwriteForward (Iterator.at buf i)) w)
    (by rw [e2, e1, splice_length _ _ i hfa]; exact hfb)
  rw [e2, e1] at h
  exact h

theorem invocations_gsYieldFromRange {κ W α : Type} (xs : Ptr W (List α))
    (C : GSAcceptor κ W α) (hC : Keeps C xs) (b e : Nat) (w : W)
    (he : b + (e - b) ≤ (xs.load w).length) :
    invocations (gsYieldFromRange (Iterator.at xs b) (Iterator.at xs e)) C w
      = ((xs.load w).drop b).take (e - b) := by
  show (rangeFor xs (fun v s => (observed C).accept.call v s) (e - b) b
    (([], C.accept.captures), w)).1.1 = _
  rw [rangeFor_eq_foldl xs _ hC.observed (e - b) b _ he]
  show (feed (observed C) _ (([], C.accept.captures), w)).1.1 = _
  rw [feed_observed]
  simp

/-! ## The claims -/

/-- C1 (single pass).  Driving `gsYieldFrom(xs) | C`, with `C` any consumer that
leaves the backing sequence alone, calls the routine of `C` with exactly the
elements of `xs`, in order: as many calls as `xs` has elements (none when `xs`
is empty), and the world afterwards is the one obtained by handing
`xs[0], xs[1], ...` to `C` one by one.  The owning source
`gsYieldFromCopy(l)` calls any consumer with exactly the elements of `l`. -/
theorem gsYieldFrom_single_pass {κ W α : Type} (xs : Ptr W (List α)) (C : GSAcceptor κ W α)
    (hC : Keeps C xs) (w : W) :
    invocations (gsYieldFrom xs) C w = xs.load w
    ∧ (invocations (gsYieldFrom xs) C w).length = (xs.load w).length
    ∧ (xs.load w = [] → invocations (gsYieldFrom xs) C w = [])
    ∧ pipeGenAcc (gsYieldFrom xs) C w = (feed C (xs.load w) (C.accept.captures, w)).2
    ∧ (∀ (l : List α), invocations (gsYieldFromCopy l) C w = l) := by
  have h1 : invocations (gsYieldFrom xs) C w = xs.load w := by
    unfold invocations
    rw [drive_gsYieldFrom xs (observed C) hC.observed, feed_observed]
    simp
  refine ⟨h1, by rw [h1], fun h0 => by rw [h1, h0], ?_, ?_⟩
  · unfold pipeGenAcc
    rw [drive_gsYieldFrom xs C hC]
  · intro l
    show (feed (observed C) l (([], C.accept.captures), w)).1.1 = l
    rw [feed_observed]
    simp

/-- Witness of C1 on the demonstration program: `gsYieldFrom(myString)` driven
into `gsInsertBack(output)` calls the sink on the eleven characters of
`"Hello World"`. -/
theorem gsYieldFrom_single_pass_witness :
    Keeps (gsInsertBack p_output) p_myString
    ∧ invocations (gsYieldFrom p_myString) (gsInsertBack p_output) mainEntry
        = "Hello World".toList :=
  ⟨fun _ _ => rfl,
   (gsYieldFrom_single_pass p_myString (gsInsertBack p_output) (fun _ _ => rfl) mainEntry).1⟩

/-- C2 (fusion equals the naive simulation).  For a transformer `T` that emits
`g x` for the input `x` and a consumer `C` that leaves the backing sequence
alone, driving `(gsYieldFrom(xs) | T) | C` calls `C` with exactly the values of
`flatMap g xs`, in that order, and leaves the world that feeding this list to
`C` one by one leaves. -/
theorem fusion_eq_naive {κ W α β : Type} (xs : Ptr W (List α)) (T : GSProcessor W α β)
    (g : α → List β) (hT : Emits T g) (C : GSAcceptor κ W β) (hC : Keeps C xs) (w : W) :
    invocations (pipeGenProc (gsYieldFrom xs) T) C w = (xs.load w).flatMap g
    ∧ pipeGenAcc (pipeGenProc (gsYieldFrom xs) T) C w
        = (feed C ((xs.load w).flatMap g) (C.accept.captures, w)).2 :=
  pipeline_gsYieldFrom xs T g hT C hC w

/-- Witness of C2: `gsYieldFrom(myString) | echoUpper | gsInsertBack(output)`
calls the sink on `H H e E l L ...`. -/
theorem fusion_eq_naive_witness :
    Emits echoUpper (fun c => [c, c.toUpper])
    ∧ Keeps (gsInsertBack p_output) p_myString
    ∧ invocations (pipeGenProc (gsYieldFrom p_myString) echoUpper) (gsInsertBack p_output)
        mainEntry = "HHeElLlLoO  WWoOrRlLdD".toList :=
  ⟨fun _ _ _ _ => rfl, fun _ _ => rfl,
   (fusion_eq_naive p_myString echoUpper (fun c => [c, c.toUpper]) (fun _ _ _ _ => rfl)
      (gsInsertBack p_output) (fun _ _ => rfl) mainEntry).1.trans (by decide)⟩

/-- C3 (transformer composition is associative).  The routines of
`(T1 | T2) | T3` and of `T1 | (T2 | T3)`, applied to the same value and the
same continuation, act identically on every state, whatever the continuation
is; the two transformers are in fact the same routine. -/
theorem pipeProcProc_assoc {W α β γ δ : Type} (T1 : GSProcessor W α β)
    (T2 : GSProcessor W β γ) (T3 : GSProcessor W γ δ) :
    (∀ (κ : Type) (v : α) (yield : δ → κ × W → κ × W) (s : κ × W),
      (pipeProcProc (pipeProcProc T1 T2) T3).process v yield s
        = (pipeProcProc T1 (pipeProcProc T2 T3)).process v yield s)
    ∧ pipeProcProc (pipeProcProc T1 T2) T3 = pipeProcProc T1 (pipeProcProc T2 T3) :=
  ⟨fun _ _ _ _ => rfl, rfl⟩

/-- C4 (fusion transparency).  Driving `(((P | T1) | T2) | T3) | C` and driving
`(P | (T1 | (T2 | T3))) | C` call `C` with the same values in the same order
and leave the same world. -/
theorem fusion_transparency {κ W α β γ δ : Type} (P : GSGenerator W α)
    (T1 : GSProcessor W α β) (T2 : GSProcessor W β γ) (T3 : GSProcessor W γ δ)
    (C : GSAcceptor κ W δ) (w : W) :
    invocations (pipeGenProc (pipeGenProc (pipeGenProc P T1) T2) T3) C w
      = invocations (pipeGenProc P (pipeProcProc T1 (pipeProcProc T2 T3))) C w
    ∧ pipeGenAcc (pipeGenProc (pipeGenProc (pipeGenProc P T1) T2) T3) C w
      = pipeGenAcc (pipeGenProc P (pipeProcProc T1 (pipeProcProc T2 T3))) C w :=
  ⟨rfl, rfl⟩

/-- C5 (map correctness).  Driving `gsYieldFrom(xs) | gsMap(f) | C`, with `C` any
consumer that leaves the backing sequence alone, calls `C` with exactly
`f(xs[0]), f(xs[1]), ...` in that order, as many values as `xs` has elements,
and leaves the world that feeding `map f xs` to `C` leaves; the routine of
`gsMap(f)` calls its continuation once, with `f(v)`. -/
theorem gsMap_correct {κ W α β : Type} (xs : Ptr W (List α)) (f : α → β)
    (C : GSAcceptor κ W β) (hC : Keeps C xs) (w : W) :
    invocations (pipeGenProc (gsYieldFrom xs) (gsMap f)) C w = (xs.load w).map f
    ∧ (invocations (pipeGenProc (gsYieldFrom xs) (gsMap f)) C w).length = (xs.load w).length
    ∧ pipeGenAcc (pipeGenProc (gsYieldFrom xs) (gsMap f)) C w
        = (feed C ((xs.load w).map f) (C.accept.captures, w)).2
    ∧ (∀ (κ2 : Type) (v : α) (yield : β → κ2 × W → κ2 × W) (s : κ2 × W),
        (gsMap f : GSProcessor W α β).process v yield s = yield (f v) s) := by
  have h := pipeline_gsYieldFrom xs (gsMap f) (fun x => [f x]) (emits_gsMap f) C hC w
  rw [flatMap_one] at h
  exact ⟨h.1, by rw [h.1, List.length_map], h.2, fun _ _ _ _ => rfl⟩

/-- Witness of C5 on line 20 of the demonstration program: the sink is called
on the upper-case form of each character of `"Hello World"`. -/
theorem gsMap_correct_witness :
    Keeps (gsInsertBack p_output) p_myString
    ∧ invocations (pipeGenProc (gsYieldFrom p_myString) (gsMap Char.toUpper))
        (gsInsertBack p_output) mainEntry = "HELLO WORLD".toList :=
  ⟨fun _ _ => rfl,
   (gsMap_correct p_myString Char.toUpper (gsInsertBack p_output) (fun _ _ => rfl)
      mainEntry).1.trans (by decide)⟩

/-- C6 (filter correctness).  Driving `gsYieldFrom(xs) | gsFilter(p) | C`, with
`C` any consumer that leaves the backing sequence alone, calls `C` with exactly
the elements of `xs` that satisfy `p`, unchanged and in their original order,
and leaves the world that feeding `filter p xs` to `C` leaves; on a value that
fails `p` the routine of `gsFilter(p)` does not call its continuation, on a
value that passes it calls it once with that value. -/
theorem gsFilter_correct {κ W α : Type} (xs : Ptr W (List α)) (p : α → Bool)
    (C : GSAcceptor κ W α) (hC : Keeps C xs) (w : W) :
    invocations (pipeGenProc (gsYieldFrom xs) (gsFilter p)) C w = (xs.load w).filter p
    ∧ pipeGenAcc (pipeGenProc (gsYieldFrom xs) (gsFilter p)) C w
        = (feed C ((xs.load w).filter p) (C.accept.captures, w)).2
    ∧ (∀ (κ2 : Type) (v : α) (yield : α → κ2 × W → κ2 × W) (s : κ2 × W),
        p v = false → (gsFilter p : GSProcessor W α α).process v yield s = s)
    ∧ (∀ (κ2 : Type) (v : α) (yield : α → κ2 × W → κ2 × W) (s : κ2 × W),
        p v = true → (gsFilter p : GSProcessor W α α).process v yield s = yield v s) := by
  have h := pipeline_gsYieldFrom xs (gsFilter p) _ (emits_gsFilter p) C hC w
  rw [flatMap_if] at h
  refine ⟨h.1, h.2, ?_, ?_⟩
  · intro κ2 v yield s hv
    show (if p v then yield v s else s) = s
    rw [hv]; rfl
  · intro κ2 v yield s hv
    show (if p v then yield v s else s) = yield v s
    rw [hv]; rfl

/-- Witness of C6: filtering `"Hello World"` on upper-case letters hands `H`
and `W` to the sink. -/
theorem gsFilter_correct_witness :
    Keeps (gsInsertBack p_output) p_myString
    ∧ invocations (pipeGenProc (gsYieldFrom p_myString) (gsFilter Char.isUpper))
        (gsInsertBack p_output) mainEntry = "HW".toList :=
  ⟨fun _ _ => rfl,
   (gsFilter_correct p_myString Char.isUpper (gsInsertBack p_output) (fun _ _ => rfl)
      mainEntry).1.trans (by decide)⟩

/-- C7 (as amended: transformer | consumer).  For a transformer `T` that emits
`g v` for the input `v` and a consumer `C` whose call operator is const (it owns
no variables that a call changes), the routine of the consumer `T | C` called
on `v` acts as handing the values of `g v` to `C` one by one, in emission
order; with `gsInsertBack(log)` as `C` the log grows by exactly `g v`.
Consequently driving `P | (T | C)` is driving `P` with the naive consumer that
feeds `g v` into `C` for each `v` produced; for a sequence source this is
feeding `flatMap g xs` to `C`, and the log grows by exactly `flatMap g xs`. -/
theorem pipeProcAcc_correct {W α β : Type} (T : GSProcessor W α β) (g : α → List β)
    (hT : Emits T g) (C : GSAcceptor Unit W β) :
    (∀ (v : α) (s : Unit × W), (pipeProcAcc T C).accept.call v s = feed C (g v) s)
    ∧ (∀ (log : Ptr W (List β)), log.Valid → ∀ (v : α) (s : Unit × W),
        log.load ((pipeProcAcc T (gsInsertBack log)).accept.call v s).2
          = log.load s.2 ++ g v)
    ∧ (∀ (P : GSGenerator W α) (w : W),
        pipeGenAcc P (pipeProcAcc T C) w
          = (P.generate (fun v s => feed C (g v) s) (C.accept.captures, w)).2)
    ∧ (∀ (xs : List α) (w : W),
        pipeGenAcc (gsYieldFromCopy xs) (pipeProcAcc T C) w
          = (feed C (xs.flatMap g) (C.accept.captures, w)).2)
    ∧ (∀ (xs : Ptr W (List α)) (w : W), Keeps C xs →
        pipeGenAcc (gsYieldFrom xs) (pipeProcAcc T C) w
          = (feed C ((xs.load w).flatMap g) (C.accept.captures, w)).2)
    ∧ (∀ (log : Ptr W (List β)), log.Valid → ∀ (xs : List α) (w : W),
        log.load (pipeGenAcc (gsYieldFromCopy xs) (pipeProcAcc T (gsInsertBack log)) w)
          = log.load w ++ xs.flatMap g) := by
  have hcopy : ∀ (D : GSAcceptor Unit W β) (xs : List α) (w : W),
      pipeGenAcc (gsYieldFromCopy xs) (pipeProcAcc T D) w
        = (feed D (xs.flatMap g) (D.accept.captures, w)).2 := by
    intro D xs w
    show ((gsYieldFromCopy xs).generate
      (fun v s => (pipeProcAcc T D).accept.call v s) _).2 = _
    rw [call_pipeProcAcc T g hT D]
    show (xs.foldl (fun s v => feed D (g v) s) _).2 = _
    rw [foldl_feed]
  refine ⟨fun v s => hT Unit v _ s, ?_, ?_, hcopy C, ?_, ?_⟩
  · intro log hv v s
    have e : (pipeProcAcc T (gsInsertBack log)).accept.call v s
        = feed (gsInsertBack log) (g v) s := hT Unit v _ s
    rw [e, load_feed_gsInsertBack log hv]
  · intro P w
    show (P.generate (fun v s => (pipeProcAcc T C).accept.call v s) _).2 = _
    rw [call_pipeProcAcc T g hT C]
  · intro xs w hC
    show ((gsYieldFrom xs).generate
      (fun v s => (pipeProcAcc T C).accept.call v s) _).2 = _
    rw [call_pipeProcAcc T g hT C, generate_gsYieldFrom xs _ (fun v s => hC.feed (g v) s),
      foldl_feed]
  · intro log hv xs w
    rw [hcopy (gsInsertBack log) xs w, load_feed_gsInsertBack log hv]

/-- Witness of C7 with the fan-out transformer `echoUpper` in front of
`gsInsertBack(output)`: called on `a`, the composed consumer appends `aA`. -/
theorem pipeProcAcc_correct_witness :
    Emits echoUpper (fun c => [c, c.toUpper])
    ∧ ((pipeProcAcc echoUpper (gsInsertBack p_output)).accept.call 'a' ((), mainEntry)).2.output
        = "aA".toList :=
  ⟨fun _ _ _ _ => rfl,
   (congrArg (fun s => s.2.output)
      ((pipeProcAcc_correct echoUpper (fun c => [c, c.toUpper]) (fun _ _ _ _ => rfl)
        (gsInsertBack p_output)).1 'a' ((), mainEntry))).trans (by decide)⟩

/-- Counterexample to C7 as stated: for the consumer
`gsOverwriteForward(output.begin())`, whose call changes the iterator it
captured (after one call the iterator is at offset 1), the routine of
`gsMap(toupper) | C` cannot be instantiated, so it makes no call at all; the
same sink reached through `gsRef` can be composed and the routine of
`gsMap(toupper) | gsRef(w)` called on `a` writes `A` and advances the shared
iterator. -/
theorem pipeProcAcc_rejects_gsOverwriteForward :
    (instantiatePipeProcAcc (gsMap Char.toUpper : GSProcessor MainLocals Char Char)
        (gsExperimental.gsOverwriteForwardOperand (Iterator.begin p_output))).isNone = true
    ∧ ((gsExperimental.gsOverwriteForward (Iterator.begin p_output)).accept.call 'a'
        (Iterator.begin p_output, mainLine20 mainEntry)).1.index = 1
    ∧ ((pipeProcAcc (gsMap Char.toUpper)
          (gsRefAcceptor (gsExperimental.gsOverwriteForward (Iterator.begin p_output)))).accept.call
        'a' ((), (Iterator.begin p_output,
          ({ myString := [], output := "..".toList } : MainLocals)))).2.2.output
        = "A.".toList
    ∧ ((pipeProcAcc (gsMap Char.toUpper)
          (gsRefAcceptor (gsExperimental.gsOverwriteForward (Iterator.begin p_output)))).accept.call
        'a' ((), (Iterator.begin p_output,
          ({ myString := [], output := "..".toList } : MainLocals)))).2.1.index = 1 := by
  decide

/-- C8 (the sequence sink appends in arrival order).  With the output container
a real object distinct from the source, after
`gsYieldFrom(xs) | gsMap(f) | gsInsertBack(out)` the output container holds its
prior contents followed by `map f xs`; on the demonstration program
(`"Hello World"`, upper-case, empty output) it holds `"HELLO WORLD"`. -/
theorem gsInsertBack_appends {W α β : Type} (xs : Ptr W (List α)) (out : Ptr W (List β))
    (f : α → β) (hv : out.Valid) (ha : xs.Apart out) (w : W) :
    out.load (pipeGenAcc (pipeGenProc (gsYieldFrom xs) (gsMap f)) (gsInsertBack out) w)
        = out.load w ++ (xs.load w).map f
    ∧ (mainLine20 mainEntry).output = "HELLO WORLD".toList := by
  refine ⟨?_, by decide⟩
  rw [(pipeline_gsYieldFrom xs (gsMap f) (fun x => [f x]) (emits_gsMap f) (gsInsertBack out)
    (keeps_gsInsertBack xs out ha) w).2, flatMap_one, load_feed_gsInsertBack out hv]

/-- Witness of C8 on line 20 of the demonstration program, entered with
`output` already holding `">"`. -/
theorem gsInsertBack_appends_witness :
    p_output.Valid ∧ p_myString.Apart p_output
    ∧ (mainLine20 { myString := "Hello World".toList, output := ">".toList }).output
        = ">HELLO WORLD".toList :=
  ⟨fun _ _ => rfl, fun _ _ => rfl,
   (gsInsertBack_appends p_myString p_output Char.toUpper (fun _ _ => rfl) (fun _ _ => rfl)
      { myString := "Hello World".toList, output := ">".toList }).1.trans (by decide)⟩

/-- C9 (positional overwrite sink).  With the buffer a real object distinct from
the source and `i + length xs ≤ length buf`, after
`gsYieldFrom(xs) | gsMap(f) | gsOverwriteForward(buf.begin() + i)` the buffer
has its length unchanged, holds `f(xs[k])` at position `i + k` for every
`k < length xs` and is unchanged at every other position; when the source is
the buffer itself (then `i = 0`) the buffer becomes its own image under the
function; with `"Hello World"`, lower-case, `i = 0` and any 11-character buffer
it becomes `"hello world"`. -/
theorem gsOverwriteForward_positional {W α β : Type} (xs : Ptr W (List α))
    (buf : Ptr W (List β)) (i : Nat) (f : α → β) (hv : buf.Valid) (ha : xs.Apart buf) (w : W)
    (hfit : i + (xs.load w).length ≤ (buf.load w).length) :
    (buf.load (pipeGenAcc (pipeGenProc (gsYieldFrom xs) (gsMap f))
        (gsExperimental.gsOverwriteForward (Iterator.at buf i)) w)).length
      = (buf.load w).length
    ∧ (∀ (k : Nat) (hk : k < (xs.load w).length),
        (buf.load (pipeGenAcc (pipeGenProc (gsYieldFrom xs) (gsMap f))
          (gsExperimental.gsOverwriteForward (Iterator.at buf i)) w))[i + k]?
        = some (f ((xs.load w)[k])))
    ∧ (∀ (j : Nat), j < i ∨ i + (xs.load w).length ≤ j →
        (buf.load (pipeGenAcc (pipeGenProc (gsYieldFrom xs) (gsMap f))
          (gsExperimental.gsOverwriteForward (Iterator.at buf i)) w))[j]?
        = (buf.load w)[j]?)
    ∧ (∀ (g : β → β) (w0 : W),
        buf.load (pipeGenAcc (pipeGenProc (gsYieldFrom buf) (gsMap g))
          (gsExperimental.gsOverwriteForward (Iterator.at buf 0)) w0)
        = (buf.load w0).map g)
    ∧ (∀ (b : List Char), b.length = 11 →
        (mainLine23 { myString := "Hello World".toList, output := b }).output
          = "hello world".toList) := by
  have key : ∀ {W α β : Type} (xs : Ptr W (List α)) (buf : Ptr W (List β)) (i : Nat)
      (f : α → β), buf.Valid → xs.Apart buf → ∀ (w : W),
      i + (xs.load w).length ≤ (buf.load w).length →
      buf.load (pipeGenAcc (pipeGenProc (gsYieldFrom xs) (gsMap f))
          (gsExperimental.gsOverwriteForward (Iterator.at buf i)) w)
        = (buf.load w).take i ++ (xs.load w).map f
            ++ (buf.load w).drop (i + ((xs.load w).map f).length) := by
    intro W α β xs buf i f hv ha w hfit
    rw [(pipeline_gsYieldFrom xs (gsMap f) (fun x => [f x]) (emits_gsMap f)
      (gsExperimental.gsOverwriteForward (Iterator.at buf i))
      (keeps_gsOverwriteForward xs buf _ ha) w).2, flatMap_one]
    exact (feed_gsOverwriteForward buf hv _ ((xs.load w).map f) i w
      (by simpa using hfit)).2
  have hfit2 : i + ((xs.load w).map f).length ≤ (buf.load w).length := by simpa using hfit
  refine ⟨?_, ?_, ?_, ?_, ?_⟩
  · rw [key xs buf i f hv ha w hfit]
    exact splice_length _ _ i hfit2
  · intro k hk
    rw [key xs buf i f hv ha w hfit,
      splice_inside (buf.load w) ((xs.load w).map f) i k hfit2 (by simpa using hk)]
    simp
  · intro j hj
    rw [key xs buf i f hv ha w hfit]
    exact splice_outside _ _ i j hfit2 (by simpa using hj)
  · intro g w0
    show buf.load (rangeFor buf
      (fun value s => (gsExperimental.gsOverwriteForward (Iterator.at buf 0)).accept.call
        (g value) s) (buf.load w0).length 0 (Iterator.at buf 0, w0)).2 = _
    rw [rangeFor_overwrite_in_place buf hv g _ _ 0 w0 (by omega)]
    simp
  · intro b hb
    have h := key p_myString p_output 0 Char.toLower (fun _ _ => rfl) (fun _ _ => rfl)
      { myString := "Hello World".toList, output := b } (by simp [p_myString, p_output, hb])
    have h11 : ((p_myString.load { myString := "Hello World".toList, output := b }).map
        Char.toLower).length = 11 := by
      show ("Hello World".toList.map Char.toLower).length = 11
      decide
    rw [h11] at h
    have hd : (p_output.load { myString := "Hello World".toList, output := b }).drop (0 + 11)
        = [] := List.drop_of_length_le (by simp [p_output, hb])
    rw [hd] at h
    refine h.trans ?_
    show [] ++ "Hello World".toList.map Char.toLower ++ [] = "hello world".toList
    decide

/-- Witness of C9 on line 23 of the demonstration program, entered with the
buffer `"HELLO WORLD"` that line 20 left: position 4 then holds `o`. -/
theorem gsOverwriteForward_positional_witness :
    p_output.Valid ∧ p_myString.Apart p_output
    ∧ (mainLine23 (mainLine20 mainEntry)).output[0 + 4]? = some 'o' :=
  ⟨fun _ _ => rfl, fun _ _ => rfl,
   ((gsOverwriteForward_positional p_myString p_output 0 Char.toLower (fun _ _ => rfl)
      (fun _ _ => rfl) (mainLine20 mainEntry) (by decide)).2.1 4 (by decide)).trans
      (by decide)⟩

/-- C10 (a reference view shares the write position of the sink).  For one
overwrite sink `w = gsOverwriteForward(buf.begin() + i)` over a real buffer and
sequences `a`, `b`, `c` with `i + |a| + |b| + |c| ≤ length buf`, the three
successive drives `gsYieldFromCopy(a) | gsRef(w)`, `gsYieldFromCopy(b) | gsRef(w)`,
`gsYieldFromCopy(c) | gsRef(w)` leave the buffer holding `a ++ b ++ c` from
position `i` on and unchanged elsewhere; on the demonstration program the final
buffer is `"Hello.World"`. -/
theorem gsRef_shares_position {W α : Type} (buf : Ptr W (List α)) (hv : buf.Valid) (i : Nat)
    (a b c : List α) (w : W)
    (hfit : i + a.length + b.length + c.length ≤ (buf.load w).length) :
    buf.load (overwriteThrice buf i a b c w)
        = (buf.load w).take i ++ (a ++ b ++ c)
            ++ (buf.load w).drop (i + a.length + b.length + c.length)
    ∧ (buf.load (overwriteThrice buf i a b c w)).length = (buf.load w).length
    ∧ (∀ (k : Nat) (hk : k < (a ++ b ++ c).length),
        (buf.load (overwriteThrice buf i a b c w))[i + k]? = some ((a ++ b ++ c)[k]))
    ∧ (∀ (j : Nat), j < i ∨ i + a.length + b.length + c.length ≤ j →
        (buf.load (overwriteThrice buf i a b c w))[j]? = (buf.load w)[j]?)
    ∧ (∀ (o : List Char), o.length = 11 →
        (mainLines28to32 { myString := "Hello World".toList, output := o }).output
          = "Hello.World".toList)
    ∧ mainPrinted = ["HELLO WORLD", "hello world", "Hello.World"] := by
  have key : ∀ {W α : Type} (buf : Ptr W (List α)), buf.Valid → ∀ (i : Nat) (a b c : List α)
      (w : W), i + (a ++ b ++ c).length ≤ (buf.load w).length →
      buf.load (overwriteThrice buf i a b c w)
        = (buf.load w).take i ++ (a ++ b ++ c) ++ (buf.load w).drop (i + (a ++ b ++ c).length) := by
    intro W α buf hv i a b c w hfit
    unfold overwriteThrice
    simp only [pipe_gsYieldFromCopy_gsRef]
    rw [← feed_append, ← feed_append, ← List.append_assoc]
    exact (feed_gsOverwriteForward buf hv _ (a ++ b ++ c) i w hfit).2
  have hlen : (a ++ b ++ c).length = a.length + b.length + c.length := by
    simp only [List.length_append]
  have hfit2 : i + (a ++ b ++ c).length ≤ (buf.load w).length := by rw [hlen]; omega
  have e := key buf hv i a b c w hfit2
  refine ⟨?_, ?_, ?_, ?_, ?_, by decide⟩
  · rw [e, hlen]
    simp only [Nat.add_assoc]
  · rw [e]
    exact splice_length _ _ i hfit2
  · intro k hk
    rw [e]
    exact splice_inside _ _ i k hfit2 hk
  · intro j hj
    rw [e]
    exact splice_outside _ _ i j hfit2 (by rw [hlen]; omega)
  · intro o ho
    have h := key p_output (fun _ _ => rfl) 0 "Hello".toList ".".toList "World".toList
      { myString := "Hello World".toList, output := o }
      (by
        have : ("Hello".toList ++ ".".toList ++ "World".toList).length = 11 := by decide
        rw [this]
        simp [p_output, ho])
    have h11 : ("Hello".toList ++ ".".toList ++ "World".toList).length = 11 := by decide
    rw [h11] at h
    have hd : (p_output.load { myString := "Hello World".toList, output := o }).drop (0 + 11)
        = [] := List.drop_of_length_le (by simp [p_output, ho])
    rw [hd] at h
    refine h.trans ?_
    show [] ++ ("Hello".toList ++ ".".toList ++ "World".toList) ++ [] = "Hello.World".toList
    decide

/-- Witness of C10 on lines 26-32 of the demonstration program: the buffer of
eleven dots becomes `"Hello.World"`. -/
theorem gsRef_shares_position_witness :
    p_output.Valid
    ∧ (overwriteThrice p_output 0 "Hello".toList ".".toList "World".toList
        { myString := "Hello World".toList, output := "...........".toList }).output
      = "Hello.World".toList :=
  ⟨fun _ _ => rfl,
   (gsRef_shares_position p_output (fun _ _ => rfl) 0 "Hello".toList ".".toList
      "World".toList { myString := "Hello World".toList, output := "...........".toList }
      (by decide)).1.trans (by decide)⟩

/-- C11 (as amended: reference views of producers).  The routine of `gsRef(P)`
is the routine of `P` (and likewise for a transformer), so for a producer
without variables of its own two drives of `gsRef(P) | C` make the calls and
leave the world of two drives of `P | C`.  For a producer object `gen` that
owns variables but whose routine leaves them unchanged, a drive through
`gsRef(gen)` and a drive of a copy of `gen` are the same, so are two successive
drives, with the same cumulative calls of `C`, and `gen` is as it was after
each drive. -/
theorem gsRef_generator_reusable {γ κ W α β : Type} (P : GSGenerator W α)
    (T : GSProcessor W α β) (gen : GSGeneratorVar γ W α)
    (hfix : ∀ (κ2 : Type) (yield : α → κ2 × W → κ2 × W) (s : γ × (κ2 × W)),
      (gen.generate yield s).1 = s.1)
    (C : GSAcceptor κ W α) (w : W) (s : γ × W) :
    (∀ (κ2 : Type) (yield : α → κ2 × W → κ2 × W) (t : κ2 × W),
        (gsRefGenerator P).generate yield t = P.generate yield t)
    ∧ (∀ (κ2 : Type) (v : α) (yield : β → κ2 × W → κ2 × W) (t : κ2 × W),
        (gsRefProcessor T).process v yield t = T.process v yield t)
    ∧ invocations (gsRefGenerator P) C w
          ++ invocations (gsRefGenerator P) C (pipeGenAcc (gsRefGenerator P) C w)
        = invocations P C w ++ invocations P C (pipeGenAcc P C w)
    ∧ pipeGenAcc (gsRefGenerator P) C (pipeGenAcc (gsRefGenerator P) C w)
        = pipeGenAcc P C (pipeGenAcc P C w)
    ∧ pipeRefOfVar gen C s = pipeCopyOfVar gen C s
    ∧ pipeRefOfVar gen C (pipeRefOfVar gen C s) = pipeCopyOfVar gen C (pipeCopyOfVar gen C s)
    ∧ invocationsVar gen C s ++ invocationsVar gen C (pipeRefOfVar gen C s)
        = invocationsVar gen C s ++ invocationsVar gen C (pipeCopyOfVar gen C s)
    ∧ (pipeRefOfVar gen C s).1 = s.1
    ∧ (pipeRefOfVar gen C (pipeRefOfVar gen C s)).1 = s.1 := by
  have e := pipeRefOfVar_eq_copy gen hfix C
  refine ⟨fun _ _ _ => rfl, fun _ _ _ _ => rfl, rfl, rfl, e s, ?_, ?_, ?_, ?_⟩
  · rw [e s, e]
  · rw [e s]
  · rw [e s]; rfl
  · rw [e s, e]; rfl

/-- Witness of C11: the owning source `gsYieldFromCopy("Hello")`, as a generator
object, leaves its variables unchanged; twice through `gsRef` into
`gsInsertBack(output)` gives `"HelloHello"`, as two drives of copies do. -/
theorem gsRef_generator_reusable_witness :
    (pipeRefOfVar (gsYieldFromCopy "Hello".toList).toVar (gsInsertBack p_output)
      (pipeRefOfVar (gsYieldFromCopy "Hello".toList).toVar (gsInsertBack p_output)
        ((), mainEntry))).2.output = "HelloHello".toList
    ∧ (pipeCopyOfVar (gsYieldFromCopy "Hello".toList).toVar (gsInsertBack p_output)
      (pipeCopyOfVar (gsYieldFromCopy "Hello".toList).toVar (gsInsertBack p_output)
        ((), mainEntry))).2.output = "HelloHello".toList :=
  have h := (gsRef_generator_reusable (gsYieldFrom p_myString) (gsMap Char.toUpper)
    (gsYieldFromCopy "Hello".toList).toVar (fun _ _ _ => rfl) (gsInsertBack p_output)
    mainEntry ((), mainEntry)).2.2.2.2.2.1
  ⟨(congrArg (fun t => t.2.output) h).trans (by decide), by decide⟩

/-- Counterexample to C11 as stated: the counting generator
`[n = 0](auto yield) mutable { yield(n++); }` driven twice through `gsRef` into
`gsInsertBack` calls the sink with `0` then `1`, while two drives of the owned
generator (each `operator|` call runs on a copy) call it with `0` then `0`. -/
theorem gsRef_counter_differs :
    invocationsVar counter (gsInsertBack (p_only : Ptr (List Nat) (List Nat))) (0, [])
        ++ invocationsVar counter (gsInsertBack p_only)
            (pipeRefOfVar counter (gsInsertBack p_only) (0, [])) = [0, 1]
    ∧ invocationsVar counter (gsInsertBack (p_only : Ptr (List Nat) (List Nat))) (0, [])
        ++ invocationsVar counter (gsInsertBack p_only)
            (pipeCopyOfVar counter (gsInsertBack p_only) (0, [])) = [0, 0]
    ∧ (pipeRefOfVar counter (gsInsertBack (p_only : Ptr (List Nat) (List Nat)))
        (pipeRefOfVar counter (gsInsertBack p_only) (0, []))).2 = [0, 1]
    ∧ (pipeCopyOfVar counter (gsInsertBack (p_only : Ptr (List Nat) (List Nat)))
        (pipeCopyOfVar counter (gsInsertBack p_only) (0, []))).2 = [0, 0]
    ∧ invocationsVar counter (gsInsertBack (p_only : Ptr (List Nat) (List Nat))) (0, [])
        ++ invocationsVar counter (gsInsertBack p_only)
            (pipeRefOfVar counter (gsInsertBack p_only) (0, []))
      ≠ invocationsVar counter (gsInsertBack (p_only : Ptr (List Nat) (List Nat))) (0, [])
        ++ invocationsVar counter (gsInsertBack p_only)
            (pipeCopyOfVar counter (gsInsertBack p_only) (0, [])) := by
  decide

/-- C12 (the kind-pairing table is complete).  Overload resolution of the pipe
operator agrees with the table of the specification on every pair of
entities: it succeeds exactly for generator|acceptor (the pipeline runs, no
entity results), generator|processor (a generator), processor|processor (a
processor) and processor|acceptor (an acceptor, the closure holding both
operands, whose routine for operands with const call operators is that of
`pipeProcAcc`); for each of the five other pairs no overload applies, so
nothing is built and nothing runs. -/
theorem pipe_kind_table {κ W α : Type} (lhs rhs : Entity κ W α) :
    (pipe lhs rhs).map Piped.kind = specTable lhs.kind rhs.kind
    ∧ ((pipe lhs rhs).isSome = true ↔
        (lhs.kind, rhs.kind) ∈
          [(Kind.generator, Kind.acceptor), (Kind.generator, Kind.processor),
           (Kind.processor, Kind.processor), (Kind.processor, Kind.acceptor)])
    ∧ ((pipe lhs rhs).isNone = true ↔
        (lhs.kind, rhs.kind) ∈
          [(Kind.generator, Kind.generator), (Kind.processor, Kind.generator),
           (Kind.acceptor, Kind.generator), (Kind.acceptor, Kind.processor),
           (Kind.acceptor, Kind.acceptor)])
    ∧ (∀ (g : GSGenerator W α) (a : GSAcceptor κ W α),
        pipe (Entity.generator g) (Entity.acceptor a)
          = some (Piped.executed (pipeGenAcc g a)))
    ∧ (∀ (g : GSGenerator W α) (t : GSProcessor W α α),
        pipe (Entity.generator g : Entity κ W α) (Entity.processor t)
          = some (Piped.built (Entity.generator (pipeGenProc g t))))
    ∧ (∀ (t u : GSProcessor W α α),
        pipe (Entity.processor t : Entity κ W α) (Entity.processor u)
          = some (Piped.built (Entity.processor (pipeProcProc t u))))
    ∧ (∀ (t : GSProcessor W α α) (a : GSAcceptor κ W α),
        pipe (Entity.processor t) (Entity.acceptor a) = some (Piped.composed t a))
    ∧ (∀ (t : GSProcessor W α α) (a : GSAcceptor Unit W α),
        (pipe (Entity.processor t) (Entity.acceptor a)).bind Piped.routine
          = some (pipeProcAcc t a)) := by
  refine ⟨?_, ?_, ?_, fun _ _ => rfl, fun _ _ => rfl, fun _ _ => rfl, fun _ _ => rfl,
    fun _ _ => rfl⟩
  · cases lhs <;> cases rhs <;> rfl
  · cases lhs <;> cases rhs <;> simp [pipe, Entity.kind]
  · cases lhs <;> cases rhs <;> simp [pipe, Entity.kind]

/-- C13 (borrowing versus owning source).  A producer built by
`gsYieldFromCopy` from the container as it is in world `w0` calls any consumer,
in whatever world `w1` it is driven, with the elements the container had in
`w0`; a producer built by `gsYieldFrom` calls a consumer that leaves the
container alone with the elements the container holds in the world where it is
driven, so a change made after construction (the container overwritten with
`ys`) is reflected. -/
theorem borrow_versus_copy {κ W α : Type} (xs : Ptr W (List α)) (C : GSAcceptor κ W α)
    (hC : Keeps C xs) (hv : xs.Valid) (w0 w1 : W) (ys : List α) :
    invocations (gsYieldFromCopy (xs.load w0)) C w1 = xs.load w0
    ∧ invocations (gsYieldFromCopy (xs.load w0)) C (xs.store ys w0) = xs.load w0
    ∧ invocations (gsYieldFrom xs) C w1 = xs.load w1
    ∧ invocations (gsYieldFrom xs) C (xs.store ys w0) = ys := by
  refine ⟨invocations_gsYieldFromCopy _ C w1, invocations_gsYieldFromCopy _ C _,
    invocations_gsYieldFrom xs C hC w1, ?_⟩
  rw [invocations_gsYieldFrom xs C hC, hv]

/-- Witness of C13 on the locals of the demonstration program: both producers
are built over `myString = "Hello World"`, then `myString` is overwritten with
`"Bye"`; the owning producer still yields `"Hello World"`, the borrowing one
yields `"Bye"`. -/
theorem borrow_versus_copy_witness :
    invocations (gsYieldFromCopy (p_myString.load mainEntry)) (gsInsertBack p_output)
        (p_myString.store "Bye".toList mainEntry) = "Hello World".toList
    ∧ invocations (gsYieldFrom p_myString) (gsInsertBack p_output)
        (p_myString.store "Bye".toList mainEntry) = "Bye".toList :=
  have h := borrow_versus_copy p_myString (gsInsertBack p_output) (fun _ _ => rfl)
    (fun _ _ => rfl) mainEntry mainEntry "Bye".toList
  ⟨h.2.1, h.2.2.2⟩

/-- C14 (the move-only wrapper is transparent).  Invoking `gsNoCopyFunc(f)` on
an argument list gives what invoking `f` on it gives; for a routine with an
effect, the same result and the same state afterwards; for a function object
with variables of its own the wrapper has the same variables and the same call
operator, so it is the same function object. -/
theorem gsNoCopyFunc_transparent {Args Result S κ W α : Type} (f : Args → Result)
    (r : Args → S → Result × S) (c : Callable κ W α) :
    (∀ (args : Args), (gsExperimental.gsNoCopyFunc f).invoke args = f args)
    ∧ (∀ (args : Args) (s : S), (gsExperimental.gsNoCopyFunc r).invoke args s = r args s)
    ∧ (∀ (v : α) (s : κ × W),
        (gsExperimental.gsNoCopyFunc c).toCallable.call v s = c.call v s)
    ∧ (gsExperimental.gsNoCopyFunc c).toCallable.captures = c.captures
    ∧ (gsExperimental.gsNoCopyFunc c).toCallable = c :=
  ⟨fun _ => rfl, fun _ _ => rfl, fun _ _ => rfl, rfl, rfl⟩

/-- C15 (as amended: mixed associativity).  For every producer `P`, transformer
`T` and consumer `C` whose call operator is const (it owns no variables that a
call changes), driving `(P | T) | C` and driving `P | (T | C)` leave the same
world and the same state: the routine of `T | C` hands to `C` exactly what the
routine of `T` hands to its continuation, so `P` is driven with the same
continuation in both; with `gsInsertBack(log)` as `C` both leave the same
log. -/
theorem pipe_mixed_assoc {W α β : Type} (P : GSGenerator W α) (T : GSProcessor W α β)
    (C : GSAcceptor Unit W β) (w : W) :
    pipeGenAcc (pipeGenProc P T) C w = pipeGenAcc P (pipeProcAcc T C) w
    ∧ (∀ (s : Unit × W),
        driveGenAcc (pipeGenProc P T) C s = driveGenAcc P (pipeProcAcc T C) s)
    ∧ (∀ (v : α) (s : Unit × W),
        (pipeProcAcc T C).accept.call v s
          = T.process v (fun value2 t => C.accept.call value2 t) s)
    ∧ (∀ (log : Ptr W (List β)),
        log.load (pipeGenAcc (pipeGenProc P T) (gsInsertBack log) w)
          = log.load (pipeGenAcc P (pipeProcAcc T (gsInsertBack log)) w)) :=
  ⟨rfl, fun _ => rfl, fun _ _ => rfl, fun _ => rfl⟩

/-- Counterexample to C15 as stated: with `C = gsOverwriteForward(output.begin())`
the grouping `(gsYieldFrom(myString) | gsMap(tolower)) | C` of line 23 runs and
leaves `"hello world"`, while in the grouping `P | (gsMap(tolower) | C)` the
routine of `gsMap(tolower) | C` cannot be instantiated, so nothing is driven. -/
theorem pipe_mixed_assoc_rejects_gsOverwriteForward :
    (pipeGenAcc (pipeGenProc (gsYieldFrom p_myString) (gsMap Char.toLower))
        (gsExperimental.gsOverwriteForward (Iterator.begin p_output))
        (mainLine20 mainEntry)).output = "hello world".toList
    ∧ (instantiatePipeProcAcc (gsMap Char.toLower : GSProcessor MainLocals Char Char)
        (gsExperimental.gsOverwriteForwardOperand (Iterator.begin p_output))).isNone = true := by
  decide

/-- C16 (as amended: without a reference view the position is not shared).
With the buffer a real object distinct from both sources and each of `a`, `b`
fitting from position `i`, after `gsYieldFrom(a)` is driven into one
`gsOverwriteForward(buf.begin() + i)` and `gsYieldFrom(b)` into another one the
buffer has its length unchanged, holds `b[k]` at `i + k` for `k < |b|`, still
holds `a[k]` at `i + k` for `|b| ≤ k < |a|`, and is unchanged before `i` and
from `i + max |a| |b|` on; whenever the first `|b|` elements of `a ++ b` are not
`b` itself, the buffer does not hold `a ++ b` from position `i` on. -/
theorem gsOverwriteForward_fresh_position {W α : Type} (buf pa pb : Ptr W (List α)) (i : Nat)
    (hv : buf.Valid) (ha : pa.Apart buf) (hb : pb.Apart buf) (w : W)
    (hfa : i + (pa.load w).length ≤ (buf.load w).length)
    (hfb : i + (pb.load w).length ≤ (buf.load w).length) :
    (buf.load (overwriteTwiceFresh buf i pa pb w)).length = (buf.load w).length
    ∧ (∀ (k : Nat) (hk : k < (pb.load w).length),
        (buf.load (overwriteTwiceFresh buf i pa pb w))[i + k]? = some ((pb.load w)[k]))
    ∧ (∀ (k : Nat) (hk : k < (pa.load w).length), (pb.load w).length ≤ k →
        (buf.load (overwriteTwiceFresh buf i pa pb w))[i + k]? = some ((pa.load w)[k]))
    ∧ (∀ (j : Nat), j < i ∨ i + max (pa.load w).length (pb.load w).length ≤ j →
        (buf.load (overwriteTwiceFresh buf i pa pb w))[j]? = (buf.load w)[j]?)
    ∧ ((pa.load w ++ pb.load w).take (pb.load w).length ≠ pb.load w →
        ((buf.load (overwriteTwiceFresh buf i pa pb w)).drop i).take
            ((pa.load w).length + (pb.load w).length) ≠ pa.load w ++ pb.load w) := by
  have e := load_overwriteTwiceFresh buf pa pb i hv ha hb w hfa hfb
  have hl1 := splice_length (buf.load w) (pa.load w) i hfa
  have hfb1 : i + (pb.load w).length
      ≤ ((buf.load w).take i ++ pa.load w
          ++ (buf.load w).drop (i + (pa.load w).length)).length := by rw [hl1]; exact hfb
  refine ⟨?_, ?_, ?_, ?_, ?_⟩
  · rw [e, splice_length _ _ i hfb1, hl1]
  · intro k hk
    rw [e]
    exact splice_inside _ _ i k hfb1 hk
  · intro k hk hbk
    rw [e, splice_outside _ _ i (i + k) hfb1 (Or.inr (by omega))]
    exact splice_inside _ _ i k hfa hk
  · intro j hj
    rw [e, splice_outside _ _ i j hfb1 (by omega), splice_outside _ _ i j hfa (by omega)]
  · intro hne heq
    apply hne
    have ht := congrArg (List.take (pb.load w).length) heq
    rw [List.take_take, Nat.min_eq_left (Nat.le_add_left _ _), e, List.append_assoc,
      List.drop_left' (by simp only [List.length_take]; omega), List.take_left] at ht
    exact ht.symm

/-- Witness of C16: `"Hello"` then `"No"` into an eight-character buffer, each
through its own overwriter at position 0, leave `"Nollo..."`. -/
theorem gsOverwriteForward_fresh_position_witness :
    (overwriteTwiceFresh p_buffer 0 p_a p_b
      { a := "Hello".toList, b := "No".toList, buffer := "........".toList }).buffer
        = "Nollo...".toList
    ∧ (overwriteTwiceFresh p_buffer 0 p_a p_b
      { a := "Hello".toList, b := "No".toList, buffer := "........".toList }).buffer[0 + 1]?
        = some 'o' :=
  ⟨by decide,
   ((gsOverwriteForward_fresh_position p_buffer p_a p_b 0 (fun _ _ => rfl) (fun _ _ => rfl)
      (fun _ _ => rfl) { a := "Hello".toList, b := "No".toList, buffer := "........".toList }
      (by decide) (by decide)).2.1 1 (by decide)).trans (by decide)⟩

/-- Counterexample to C16 as stated: with `a` empty and `b = "Hi"`, both fitting
in the two-character buffer, the two drives leave the buffer holding exactly
`a ++ b`. -/
theorem gsOverwriteForward_fresh_is_append :
    0 + (p_a.load { a := [], b := "Hi".toList, buffer := "..".toList : TwoSources }).length
        ≤ (p_buffer.load { a := [], b := "Hi".toList, buffer := "..".toList : TwoSources }).length
    ∧ 0 + (p_b.load { a := [], b := "Hi".toList, buffer := "..".toList : TwoSources }).length
        ≤ (p_buffer.load { a := [], b := "Hi".toList, buffer := "..".toList : TwoSources }).length
    ∧ p_buffer.load (overwriteTwiceFresh p_buffer 0 p_a p_b
        { a := [], b := "Hi".toList, buffer := "..".toList })
      = p_a.load { a := [], b := "Hi".toList, buffer := "..".toList : TwoSources }
        ++ p_b.load { a := [], b := "Hi".toList, buffer := "..".toList : TwoSources } := by
  decide

/-- C17 (map fusion).  The routine of `gsMap(f) | gsMap(g)` applied to a value
and a continuation is the routine of `gsMap(g ∘ f)`: it calls the continuation
once, with `g(f(v))`; driven with the single value `v` into any consumer, the
one call recorded is `g(f(v))`. -/
theorem gsMap_fusion {κ W α β γ : Type} (f : α → β) (g : β → γ) (C : GSAcceptor κ W γ) :
    (∀ (κ2 : Type) (v : α) (yield : γ → κ2 × W → κ2 × W) (s : κ2 × W),
        (pipeProcProc (gsMap f) (gsMap g)).process v yield s
          = (gsMap (g ∘ f) : GSProcessor W α γ).process v yield s)
    ∧ (∀ (κ2 : Type) (v : α) (yield : γ → κ2 × W → κ2 × W) (s : κ2 × W),
        (pipeProcProc (gsMap f) (gsMap g)).process v yield s = yield (g (f v)) s)
    ∧ (pipeProcProc (gsMap f) (gsMap g) : GSProcessor W α γ) = gsMap (g ∘ f)
    ∧ (∀ (v : α) (w : W),
        invocations (pipeGenProc (gsYieldFromCopy [v]) (pipeProcProc (gsMap f) (gsMap g)))
          C w = [g (f v)]) :=
  ⟨fun _ _ _ _ => rfl, fun _ _ _ _ => rfl, rfl, fun _ _ => rfl⟩

/-- C18 (filter fusion).  The routine of `gsFilter(p) | gsFilter(q)` is the
routine of `gsFilter(x => p(x) && q(x))`: it calls the continuation once with
`v` when `p v` and `q v` both hold, and not at all otherwise.  For predicates
whose evaluation acts on the world the same law holds with the short-circuit
conjunction, and on a value that fails `p` the outcome is the state left by
the evaluation of `p` alone, whatever `q` is: `q` is not evaluated. -/
theorem gsFilter_fusion {W α : Type} (p q : α → Bool) (pw qw : α → W → Bool × W) :
    (∀ (κ : Type) (v : α) (yield : α → κ × W → κ × W) (s : κ × W),
        (pipeProcProc (gsFilter p) (gsFilter q)).process v yield s
          = (gsFilter (fun x => p x && q x) : GSProcessor W α α).process v yield s)
    ∧ (∀ (κ : Type) (v : α) (yield : α → κ × W → κ × W) (s : κ × W),
        p v = true → q v = true →
        (pipeProcProc (gsFilter p) (gsFilter q)).process v yield s = yield v s)
    ∧ (∀ (κ : Type) (v : α) (yield : α → κ × W → κ × W) (s : κ × W),
        p v = false ∨ q v = false →
        (pipeProcProc (gsFilter p) (gsFilter q)).process v yield s = s)
    ∧ (∀ (κ : Type) (v : α) (yield : α → κ × W → κ × W) (s : κ × W),
        (pipeProcProc (gsFilterActing pw) (gsFilterActing qw)).process v yield s
          = (gsFilterActing (andAlso pw qw)).process v yield s)
    ∧ (∀ (κ : Type) (v : α) (yield : α → κ × W → κ × W) (s : κ × W),
        (pw v s.2).1 = false →
        (pipeProcProc (gsFilterActing pw) (gsFilterActing qw)).process v yield s
          = (s.1, (pw v s.2).2))
    ∧ (∀ (κ : Type) (v : α) (yield : α → κ × W → κ × W) (s : κ × W),
        (gsFilterActing (fun x w => (p x, w)) : GSProcessor W α α).process v yield s
          = (gsFilter p : GSProcessor W α α).process v yield s) := by
  refine ⟨?_, ?_, ?_, ?_, ?_, fun _ _ _ _ => rfl⟩
  · intro κ v yield s
    show (if p v then (if q v then yield v s else s) else s)
      = (if (p v && q v) then yield v s else s)
    cases p v <;> cases q v <;> rfl
  · intro κ v yield s hp hq
    show (if p v then (if q v then yield v s else s) else s) = yield v s
    rw [hp, hq]; rfl
  · intro κ v yield s h
    show (if p v then (if q v then yield v s else s) else s) = s
    rcases h with h | h
    · rw [h]; rfl
    · rw [h]; cases p v <;> rfl
  · intro κ v yield s
    show (if (pw v s.2).1 then
            (if (qw v (pw v s.2).2).1 then yield v (s.1, (qw v (pw v s.2).2).2)
             else (s.1, (qw v (pw v s.2).2).2))
          else (s.1, (pw v s.2).2))
      = (if (andAlso pw qw v s.2).1 then yield v (s.1, (andAlso pw qw v s.2).2)
         else (s.1, (andAlso pw qw v s.2).2))
    unfold andAlso
    cases h : (pw v s.2).1 <;> simp
  · intro κ v yield s h
    show (if (pw v s.2).1 then
            (if (qw v (pw v s.2).2).1 then yield v (s.1, (qw v (pw v s.2).2).2)
             else (s.1, (qw v (pw v s.2).2).2))
          else (s.1, (pw v s.2).2)) = _
    rw [h]; rfl

/-- C19 (the iterator-range source).  For a consumer that leaves the sequence
alone and positions `b ≤ e ≤ length xs`, the producer
`gsYieldFrom(xs.begin() + b, xs.begin() + e)` calls the consumer with exactly
`xs[b], ..., xs[e-1]` in forward order, `e - b` calls, none when `b = e`; over
the full range it is the same routine as `gsYieldFrom(xs)` and makes the same
calls. -/
theorem gsYieldFromRange_correct {κ W α : Type} (xs : Ptr W (List α)) (C : GSAcceptor κ W α)
    (hC : Keeps C xs) (b e : Nat) (w : W) (hbe : b ≤ e) (he : e ≤ (xs.load w).length) :
    invocations (gsYieldFromRange (Iterator.at xs b) (Iterator.at xs e)) C w
        = ((xs.load w).drop b).take (e - b)
    ∧ (invocations (gsYieldFromRange (Iterator.at xs b) (Iterator.at xs e)) C w).length = e - b
    ∧ (∀ (k : Nat), b + k < e →
        (invocations (gsYieldFromRange (Iterator.at xs b) (Iterator.at xs e)) C w)[k]?
          = (xs.load w)[b + k]?)
    ∧ (b = e → invocations (gsYieldFromRange (Iterator.at xs b) (Iterator.at xs e)) C w = [])
    ∧ pipeGenAcc (gsYieldFromRange (Iterator.at xs b) (Iterator.at xs e)) C w
        = (feed C (((xs.load w).drop b).take (e - b)) (C.accept.captures, w)).2
    ∧ (∀ (κ2 : Type) (yield : α → κ2 × W → κ2 × W) (s : κ2 × W),
        (gsYieldFromRange (Iterator.begin xs) (Iterator.at xs (xs.load s.2).length)).generate
            yield s = (gsYieldFrom xs).generate yield s)
    ∧ invocations (gsYieldFromRange (Iterator.begin xs)
          (Iterator.at xs (xs.load w).length)) C w = invocations (gsYieldFrom xs) C w := by
  have hfit : b + (e - b) ≤ (xs.load w).length := by omega
  have h := invocations_gsYieldFromRange xs C hC b e w hfit
  refine ⟨h, ?_, ?_, ?_, ?_, fun _ _ _ => rfl, rfl⟩
  · rw [h, List.length_take, List.length_drop]; omega
  · intro k hk
    rw [h, List.getElem?_take_of_lt (by omega), List.getElem?_drop]
  · intro hb
    rw [h, hb, Nat.sub_self, List.take_zero]
  · show (rangeFor xs (fun v s => C.accept.call v s) (e - b) b (C.accept.captures, w)).2 = _
    rw [rangeFor_eq_foldl xs _ hC (e - b) b _ hfit]
    rfl

/-- Witness of C19: the range `[6, 11)` of `myString = "Hello World"` hands
`"World"` to the sink. -/
theorem gsYieldFromRange_correct_witness :
    Keeps (gsInsertBack p_output) p_myString
    ∧ invocations (gsYieldFromRange (Iterator.at p_myString 6) (Iterator.at p_myString 11))
        (gsInsertBack p_output) mainEntry = "World".toList :=
  ⟨fun _ _ => rfl,
   (gsYieldFromRange_correct p_myString (gsInsertBack p_output) (fun _ _ => rfl) 6 11
      mainEntry (by decide) (by decide)).1.trans (by decide)⟩

end GStreams
